import Mathlib

/-!
Verification development for the PatientLens dashboard (`PatientsApp.py`).

The file embeds the data-pipeline core of the dashboard — support-count
derivation, pattern filtering and sorting, time bucketing, demographic
aggregation, snippet highlighting and the selection round-trip — as
executable Lean definitions, and settles the specification's claims
about that pipeline.  Each definition is translated from the Python
source; where the source delegates to a library routine (numpy's
argsort, pandas' time grouper, Python's `re` alternation, `str.split`),
the definition reproduces that routine's documented and implemented
behaviour.
-/

namespace PatientsApp

/-! ## Dates and the time-series table

`pub_date` values are calendar dates compared chronologically
(`pd.to_datetime` order).  A date is a (year, month, day) triple and
`dle` is the chronological `≤`. -/

structure Date where
  y : Nat
  m : Nat
  d : Nat
deriving DecidableEq

/-- Chronological `≤` on dates (lexicographic on year, month, day),
the order used by the `pub_date` comparisons on line 138. -/
def dle (a b : Date) : Bool :=
  decide (a.y < b.y) ||
    (a.y == b.y && (decide (a.m < b.m) || (a.m == b.m && decide (a.d ≤ b.d))))

/-- The calendar-month bucket index of a date: `pd.Grouper(freq='M')`
assigns each row to its calendar month.  Consecutive months get
consecutive indices. -/
def monthKey (dt : Date) : Nat := dt.y * 12 + (dt.m - 1)

/-- Line 138: `sub[(sub['pub_date'] >= start) & (sub['pub_date'] <= end)]` —
the inclusive date-range filter on (date, count) rows. -/
def dateFilter (s e : Date) (rows : List (Date × Nat)) : List (Date × Nat) :=
  rows.filter fun r => dle s r.1 && dle r.1 e

/-- Sum of the `count` column of a list of (date, count) rows. -/
def sumCounts (rows : List (Date × Nat)) : Nat := (rows.map Prod.snd).sum

/-- The bucket keys of the rows. -/
def bucketKeys (keyFn : Date → Nat) (rows : List (Date × Nat)) : List Nat :=
  rows.map fun r => keyFn r.1

/-- Line 140: `sub.groupby(pd.Grouper(key='pub_date', freq=freq)).sum()`.
A `pd.Grouper` with a time frequency bins like `resample`: the output has
one row per bucket on the regular grid from the first populated bucket to
the last one, and a bucket with no rows gets sum 0 (empty buckets inside
the span are zero-filled, not dropped).  `keyFn` maps a date to its bucket
index on that grid (for `freq='M'` it is `monthKey`; the other
granularities are month multiples, likewise consecutive integers). -/
def grouperSum (keyFn : Date → Nat) (rows : List (Date × Nat)) : List (Nat × Nat) :=
  match rows with
  | [] => []
  | r0 :: rest =>
    let lo := (bucketKeys keyFn (r0 :: rest)).foldl min (keyFn r0.1)
    let hi := (bucketKeys keyFn (r0 :: rest)).foldl max (keyFn r0.1)
    (List.range (hi + 1 - lo)).map fun i =>
      (lo + i, sumCounts ((r0 :: rest).filter fun r => keyFn r.1 == lo + i))

/-! ## The pattern table (lines 49-64) -/

structure PRow where
  itemsets : List String
  pattern_label : String
  support : ℚ
  len : Nat
  support_count : Int
deriving DecidableEq

instance : Inhabited PRow := ⟨⟨[], "", 0, 0, 0⟩⟩

/-- The pattern table; `hasSupportCount` records whether the
`support_count` column is present (line 49 tests column presence, a
table-level fact).  While it is `false` the per-row `support_count`
field is meaningless (the column does not exist). -/
structure PTable where
  hasSupportCount : Bool
  rows : List PRow
deriving DecidableEq

/-- numpy's `.astype(int)` on a float: truncation toward zero. -/
def astypeInt (q : ℚ) : Int := if q < 0 then -(Int.floor (-q)) else Int.floor q

/-- Lines 49-50:
`if 'support_count' not in pattern_df.columns:
   pattern_df['support_count'] = (pattern_df['support'] * len(clean_df)).astype(int)`.
`total` is `len(clean_df)`. -/
def deriveSupportCount (total : Nat) (t : PTable) : PTable :=
  if t.hasSupportCount then t
  else ⟨true, t.rows.map fun r =>
    { r with support_count := astypeInt (r.support * (total : ℚ)) }⟩

/-- Lines 59-62: the dynamic filter keeps rows with
`len >= min_len` and `support_count >= min_freq`.  (This copy of the
script has no text-search input; the filter has exactly these two
conjuncts.) -/
def filtPatterns (rows : List PRow) (min_len : Nat) (min_freq : Int) : List PRow :=
  rows.filter fun r =>
    decide (min_len ≤ r.len) && decide (min_freq ≤ r.support_count)

/-- Lower-cased character list of a string (ASCII case folding, the
relevant case for the clinical terms). -/
def lowerChars (s : String) : List Char := s.data.map Char.toLower

/-- `p` is a leading block of `s` (plain, case-sensitive). -/
def isHeadOf (p s : List Char) : Bool :=
  match p, s with
  | [], _ => true
  | _ :: _, [] => false
  | a :: ps, b :: ss => a == b && isHeadOf ps ss

/-- `need` occurs contiguously inside `hay`. -/
def occursIn (need hay : List Char) : Bool :=
  match hay with
  | [] => need.isEmpty
  | c :: t => isHeadOf need (c :: t) || occursIn need t

/-- Modelled from the spec: the search predicate of the Pattern Filter
contract — "at least one term in `itemsets` contains the search string
as a substring, case-insensitively".  The filtering code of this copy of
the script (lines 59-62) has no search input, so this definition follows
the spec's words and exists to state the claim against the code. -/
def specSearchMatch (search : String) (r : PRow) : Bool :=
  r.itemsets.any fun term => occursIn (lowerChars search) (lowerChars term)

/-! ## Sorting (line 64)

`filt.sort_values(by=order_by, ascending=ascending)` with the default
`kind='quicksort'`.  pandas (`nargsort`) argsorts the key column with
numpy's `quicksort` — actually introsort: median-of-3 quicksort,
switching to a stable insertion sort for ranges of at most 16 elements
and to heapsort past the depth limit `2 * msb(n)` — and for
`ascending=False` it reverses the values before argsorting and reverses
the resulting indexer afterwards.  The definitions below port numpy's
`npysort` argsort routines index for index; loops become fuel
recursions with fuel large enough that it never runs out on the ranges
the algorithm visits. -/

/-- `t[i]` with out-of-range default 0 (indices stay in range in all
reachable states). -/
def lget (l : List Nat) (i : Nat) : Nat := l.getD i 0

def lset (l : List Nat) (i v : Nat) : List Nat := l.set i v

def lswap (l : List Nat) (i j : Nat) : List Nat :=
  (l.set i (lget l j)).set j (lget l i)

/-- `v[t[i]]`: the key of the element the index array places at `i`. -/
def keyAt (v : List Int) (t : List Nat) (i : Nat) : Int := v.getD (lget t i) 0

def ltIdx (v : List Int) (t : List Nat) (i j : Nat) : Bool :=
  decide (keyAt v t i < keyAt v t j)

/-- The shifting loop of numpy's insertion argsort:
`while pj > pl and v[vp] < v[t[pj-1]]: t[pj] = t[pj-1]; pj -= 1`. -/
def shiftLoop (v : List Int) (vp : Int) (pl : Nat) :
    Nat → List Nat → Nat → List Nat × Nat
  | 0, t, pj => (t, pj)
  | fuel + 1, t, pj =>
    if decide (pl < pj) && decide (vp < keyAt v t (pj - 1)) then
      shiftLoop v vp pl fuel (lset t pj (lget t (pj - 1))) (pj - 1)
    else (t, pj)

/-- One step of the insertion pass: insert `t[i1]` into the sorted block
`t[pl..i1-1]`. -/
def insertOne (v : List Int) (pl : Nat) (t : List Nat) (i1 : Nat) : List Nat :=
  let vi := lget t i1
  let vp := v.getD vi 0
  let r := shiftLoop v vp pl i1 t i1
  lset r.1 r.2 vi

/-- numpy's insertion argsort over the inclusive range `[pl, pr]` (the
small-range branch of `aquicksort`, a stable sort). -/
def insertionPass (v : List Int) (t : List Nat) (pl pr : Nat) : List Nat :=
  (List.range' (pl + 1) (pr - pl)).foldl (insertOne v pl) t

/-- `do ++pi while v[t[pi]] < vp` (the increment happens before the call). -/
def upScan (v : List Int) (vp : Int) (t : List Nat) : Nat → Nat → Nat
  | 0, x => x
  | fuel + 1, x => if decide (keyAt v t x < vp) then upScan v vp t fuel (x + 1) else x

/-- `do --pj while vp < v[t[pj]]` (the decrement happens before the call). -/
def downScan (v : List Int) (vp : Int) (t : List Nat) : Nat → Nat → Nat
  | 0, x => x
  | fuel + 1, x => if decide (vp < keyAt v t x) then downScan v vp t fuel (x - 1) else x

/-- The partition exchange loop of `aquicksort`; returns the array and
the final `pi`. -/
def partLoop (v : List Int) (vp : Int) :
    Nat → List Nat → Nat → Nat → List Nat × Nat
  | 0, t, i1, _ => (t, i1)
  | fuel + 1, t, i1, j1 =>
    let i2 := upScan v vp t t.length (i1 + 1)
    let j2 := downScan v vp t t.length (j1 - 1)
    if decide (j2 ≤ i2) then (t, i2)
    else partLoop v vp fuel (lswap t i2 j2) i2 j2

/-- Median-of-3 pivot placement: the three conditional swaps at the top
of the `aquicksort` partition step. -/
def medianOf3 (v : List Int) (t : List Nat) (pl pm pr : Nat) : List Nat :=
  let t1 := if ltIdx v t pm pl then lswap t pm pl else t
  let t2 := if ltIdx v t1 pr pm then lswap t1 pr pm else t1
  if ltIdx v t2 pm pl then lswap t2 pm pl else t2

/-- One-based view of the range `[pl, pr]` used by `aheapsort`:
`a[i] = t[pl + i - 1]`. -/
def hsA (t : List Nat) (pl i : Nat) : Nat := lget t (pl + i - 1)

def hsSet (t : List Nat) (pl i v : Nat) : List Nat := lset t (pl + i - 1) v

/-- The sift-down loop of `aheapsort` with held element `tmp`; returns
the array and the hole position `i`. -/
def siftDown (v : List Int) (pl : Nat) (tmp n : Nat) :
    Nat → List Nat → Nat → Nat → List Nat × Nat
  | 0, t, i, _ => (t, i)
  | fuel + 1, t, i, j =>
    if decide (j ≤ n) then
      let j := if decide (j < n) &&
          decide (v.getD (hsA t pl j) 0 < v.getD (hsA t pl (j + 1)) 0) then j + 1 else j
      if decide (v.getD tmp 0 < v.getD (hsA t pl j) 0) then
        siftDown v pl tmp n fuel (hsSet t pl i (hsA t pl j)) j (j + j)
      else (t, i)
    else (t, i)

/-- Heapify: `for l = n/2 downto 1`. -/
def heapBuild (v : List Int) (pl n : Nat) : Nat → List Nat → Nat → List Nat
  | 0, t, _ => t
  | fuel + 1, t, l =>
    if l == 0 then t
    else
      let tmp := hsA t pl l
      let r := siftDown v pl tmp n (n + 2) t l (l + l)
      heapBuild v pl n fuel (hsSet r.1 pl r.2 tmp) (l - 1)

/-- Extraction: `while n > 1: swap a[1] a[n]; n -= 1; sift down`. -/
def heapExtract (v : List Int) (pl : Nat) : Nat → List Nat → Nat → List Nat
  | 0, t, _ => t
  | fuel + 1, t, n =>
    if decide (n ≤ 1) then t
    else
      let tmp := hsA t pl n
      let t := hsSet t pl n (hsA t pl 1)
      let n1 := n - 1
      let r := siftDown v pl tmp n1 (n1 + 2) t 1 2
      heapExtract v pl fuel (hsSet r.1 pl r.2 tmp) n1

/-- numpy's `aheapsort` over the inclusive range `[pl, pr]` (the
depth-limit fallback of introsort). -/
def aheapsortRange (v : List Int) (t : List Nat) (pl pr : Nat) : List Nat :=
  let n := pr - pl + 1
  heapExtract v pl (n + 1) (heapBuild v pl n (n + 1) t (n / 2)) n

/-- `npy_get_msb`: the index of the highest set bit. -/
def msbFuel : Nat → Nat → Nat
  | 0, _ => 0
  | fuel + 1, n => if n ≤ 1 then 0 else msbFuel fuel (n / 2) + 1

def npyGetMsb (n : Nat) : Nat := msbFuel n n

/-- numpy's `aquicksort` on the inclusive range `[pl, pr]`: ranges of
more than 16 elements are partitioned (median of 3, exchange scans)
and both sides recurse with the depth budget decremented; when the
budget is exhausted the range is heapsorted; ranges of at most 16
elements get the stable insertion pass.  The two sides of a partition
touch disjoint index ranges, so sequencing left then right reproduces
numpy's stack discipline. -/
def aqsort (v : List Int) : Nat → Int → List Nat → Nat → Nat → List Nat
  | 0, _, t, _, _ => t
  | fuel + 1, cdepth, t, pl, pr =>
    if decide (15 < pr - pl) then
      if decide (cdepth < 0) then aheapsortRange v t pl pr
      else
        let pm := pl + (pr - pl) / 2
        let t1 := medianOf3 v t pl pm pr
        let vp := keyAt v t1 pm
        let t2 := lswap t1 pm (pr - 1)
        let r := partLoop v vp (pr - pl + 2) t2 pl (pr - 1)
        let t3 := lswap r.1 r.2 (pr - 1)
        let t4 := aqsort v fuel (cdepth - 1) t3 pl (r.2 - 1)
        aqsort v fuel (cdepth - 1) t4 (r.2 + 1) pr
    else insertionPass v t pl pr

/-- numpy `argsort(kind='quicksort')` of an integer key column. -/
def npAargsort (keys : List Int) : List Nat :=
  let n := keys.length
  aqsort keys (n + 2) ((2 * npyGetMsb n : Nat) : Int) (List.range n) 0 (n - 1)

/-- Line 64: `filt.sort_values(by=order_by, ascending=ascending)`
followed by `reset_index(drop=True)`.  pandas `nargsort`: for a
descending sort the values and the index are reversed before the
argsort and the indexer is reversed after it; the key columns here are
integer-valued, so the NaN handling of `nargsort` is vacuous. -/
def sort_values (rows : List PRow) (key : PRow → Int) (ascending : Bool) : List PRow :=
  let keys := rows.map key
  let n := rows.length
  let ks := if ascending then keys else keys.reverse
  let idx := if ascending then List.range n else (List.range n).reverse
  let order := npAargsort ks
  let indexer := order.map fun i => idx.getD i 0
  let indexer2 := if ascending then indexer else indexer.reverse
  indexer2.map fun i => rows.getD i default

/-- Position of the row labelled `lab` in `out` (the fixtures below use
pairwise distinct labels, so this identifies a row). -/
def posOf (out : List PRow) (lab : String) : Nat :=
  out.findIdx fun r => r.pattern_label == lab

/-- The stability property of the claim, as a check on a concrete
input/output pair: every two rows of `inp` with equal sort keys keep
their relative order in `out`. -/
def stableOn (key : PRow → Int) (inp out : List PRow) : Bool :=
  (List.range inp.length).all fun i =>
    (List.range inp.length).all fun j =>
      !(decide (i < j) && (key (inp.getD i default) == key (inp.getD j default))) ||
        decide (posOf out (inp.getD i default).pattern_label <
                posOf out (inp.getD j default).pattern_label)

end PatientsApp

namespace PatientsApp

/-! ## Demographics (lines 144-211) -/

structure DRow where
  pattern_label : String
  age_bin : String
  gender : String
  count : Nat
deriving DecidableEq

/-- `demog_df[demog_df['pattern_label'] == pat]`. -/
def demogSub (demog : List DRow) (pat : String) : List DRow :=
  demog.filter fun r => r.pattern_label == pat

/-- `rows[p]['count'].sum()`. -/
def sumWhere (p : DRow → Bool) (rows : List DRow) : Nat :=
  ((rows.filter p).map (fun r => r.count)).sum

/-- Strict lexicographic order on character lists (the order pandas
sorts string group keys by). -/
def lexLt (a b : List Char) : Bool :=
  match a, b with
  | [], [] => false
  | [], _ :: _ => true
  | _ :: _, [] => false
  | x :: xs, y :: ys => decide (x < y) || (x == y && lexLt xs ys)

def insertStr (x : String) : List String → List String
  | [] => [x]
  | y :: ys => if lexLt x.data y.data then x :: y :: ys else y :: insertStr x ys

/-- Ascending sort of a list of strings (group keys are distinct after
`eraseDups`, so ties do not arise). -/
def sortStrs (l : List String) : List String := l.foldr insertStr []

/-- `rows.groupby('age_bin')['count'].sum().reset_index()` — pandas
`groupby` sorts its group keys ascending (default `sort=True`). -/
def groupbyAgeSum (rows : List DRow) : List (String × Nat) :=
  (sortStrs ((rows.map fun r => r.age_bin).eraseDups)).map fun b =>
    (b, sumWhere (fun r => r.age_bin == b) rows)

/-- Lines 146-154: the age-split bar chart — one bar per `age_bin`
value, in first-occurrence order (`Series.unique`), each bar the summed
count for that bin. -/
structure AgeFig where
  pat : String
  bars : List (String × Nat)
deriving DecidableEq

def mkAgeFig (pat : String) (demog : List DRow) : AgeFig :=
  let sub := demogSub demog pat
  ⟨pat, ((sub.map fun r => r.age_bin).eraseDups).map fun b =>
    (b, sumWhere (fun r => r.age_bin == b) sub)⟩

/-- Lines 157-176: the gender-split bar chart. -/
structure GenderFig where
  pat : String
  bars : List (String × Nat)
deriving DecidableEq

def mkGenderFig (pat : String) (demog : List DRow) : GenderFig :=
  let sub := demogSub demog pat
  ⟨pat, ((sub.map fun r => r.gender).eraseDups).map fun g =>
    (g, sumWhere (fun r => r.gender == g) sub)⟩

/-- Lines 179-211: the combined age+gender chart.  `maleBars` /
`femaleBars` are `male_data` / `female_data` (groupby `age_bin`, summed
counts); `yMax` is the upper end of `range=[0, max_val*1.1]`, where
`max_val = max(female_data['count'].max() if not female_data.empty else 0,
male_data['count'].max() if not male_data.empty else 0)`. -/
structure AgeGenderFig where
  pat : String
  maleBars : List (String × Nat)
  femaleBars : List (String × Nat)
  yMax : ℚ
deriving DecidableEq

def mkAgeGenderFig (pat : String) (demog : List DRow) : AgeGenderFig :=
  let sub := demogSub demog pat
  let male_data := groupbyAgeSum (sub.filter fun r => r.gender == "M")
  let female_data := groupbyAgeSum (sub.filter fun r => r.gender == "F")
  let max_val :=
    max (if female_data.isEmpty then 0 else ((female_data.map Prod.snd).foldl max 0))
        (if male_data.isEmpty then 0 else ((male_data.map Prod.snd).foldl max 0))
  ⟨pat, male_data, female_data, (max_val : ℚ) * (11 / 10)⟩

/-- The maximum of one gender's per-age-bin series for a pattern, an
empty series contributing 0 — the quantity the spec's combined-split
contract talks about. -/
def seriesMaxSpec (pat g : String) (demog : List DRow) : Nat :=
  ((groupbyAgeSum ((demogSub demog pat).filter fun r => r.gender == g)).map
    Prod.snd).foldl max 0

/-! ## The right-column render pass (lines 82-227) -/

structure TSRow where
  pattern_label : String
  pub_date : Date
  count : Nat
deriving DecidableEq

/-- Line 134: `timeseries_df[timeseries_df['pattern_label'] == pat]`. -/
def tsSub (ts : List TSRow) (pat : String) : List TSRow :=
  ts.filter fun r => r.pattern_label == pat

inductive DemogFig where
  | age : AgeFig → DemogFig
  | gender : GenderFig → DemogFig
  | ageGender : AgeGenderFig → DemogFig
deriving DecidableEq

/-- The local variables of the `for pat in selected_patterns` loop body
that survive to the display code: the three demographic figure
variables (each `none` while the corresponding Python name is still
unbound) and the scatter traces added to `fig` so far. -/
structure RState where
  figAge : Option AgeFig
  figGender : Option GenderFig
  figAgeGender : Option AgeGenderFig
  series : List (String × List (Nat × Nat))
deriving DecidableEq

def initR : RState := ⟨none, none, none, []⟩

/-- Lines 133-211, one iteration of the loop over selected patterns:
skip the pattern if its (raw) time-series subset is empty; otherwise
date-filter, bucket, add the scatter trace, and rebind whichever
demographic figure variable the split toggles select. -/
def loopStep (ts : List TSRow) (demog : List DRow) (s e : Date) (keyFn : Date → Nat)
    (splitAge splitGender : Bool) (st : RState) (pat : String) : RState :=
  let sub := tsSub ts pat
  if sub.isEmpty then st
  else
    let subF := dateFilter s e (sub.map fun r => (r.pub_date, r.count))
    let bucks := grouperSum keyFn subF
    let st1 := { st with series := st.series ++ [(pat, bucks)] }
    let st2 := if splitAge && !splitGender then
        { st1 with figAge := some (mkAgeFig pat demog) } else st1
    let st3 := if splitGender && !splitAge then
        { st2 with figGender := some (mkGenderFig pat demog) } else st2
    if splitAge && splitGender then
      { st3 with figAgeGender := some (mkAgeGenderFig pat demog) } else st3

/-- What one render pass of the right column displays. -/
structure Rendered where
  series : List (String × List (Nat × Nat))
  demogChart : Option DemogFig
deriving DecidableEq

/-- Lines 82-227: the whole right-column pass.  With no selection the
info message is shown (an empty render).  Otherwise the loop runs, and
the display code (lines 222-227) reads whichever figure variable the
toggles select; if the loop never assigned it, the Python name is
unbound and the read raises `NameError`. -/
def renderRight (sel : List String) (ts : List TSRow) (demog : List DRow)
    (s e : Date) (keyFn : Date → Nat) (splitAge splitGender : Bool) :
    Except String Rendered :=
  if sel.isEmpty then Except.ok ⟨[], none⟩
  else
    let st := sel.foldl (loopStep ts demog s e keyFn splitAge splitGender) initR
    if splitAge && !splitGender then
      match st.figAge with
      | none => Except.error "NameError: name fig_age is not defined"
      | some f => Except.ok ⟨st.series, some (DemogFig.age f)⟩
    else if splitGender && !splitAge then
      match st.figGender with
      | none => Except.error "NameError: name fig_gender is not defined"
      | some f => Except.ok ⟨st.series, some (DemogFig.gender f)⟩
    else if splitAge && splitGender then
      match st.figAgeGender with
      | none => Except.error "NameError: name fig_age_gender is not defined"
      | some f => Except.ok ⟨st.series, some (DemogFig.ageGender f)⟩
    else Except.ok ⟨st.series, none⟩

/-- The demographic chart a render pass displays, if any. -/
def renderedDemog (r : Except String Rendered) : Option DemogFig :=
  match r with
  | Except.ok x => x.demogChart
  | Except.error _ => none

/-! ## Splitting and the selection round-trip (lines 71-73, 237) -/

/-- The literal separator `" - "` of the multiselect display strings. -/
def dashSep : List Char := [' ', '-', ' ']

/-- The literal separator `" || "` joining a pattern label's terms. -/
def barSep : List Char := [' ', '|', '|', ' ']

/-- Split a string at its first occurrence of `sep`: `none` when `sep`
does not occur, otherwise the part before and the part after. -/
def breakAt (sep : List Char) : List Char → Option (List Char × List Char)
  | [] => if sep.isEmpty then some ([], []) else none
  | c :: cs =>
    if isHeadOf sep (c :: cs) then some ([], (c :: cs).drop sep.length)
    else
      match breakAt sep cs with
      | none => none
      | some (a, b) => some (c :: a, b)

def splitGo (sep : List Char) : Nat → List Char → List (List Char)
  | 0, s => [s]
  | fuel + 1, s =>
    match breakAt sep s with
    | none => [s]
    | some (a, b) => a :: splitGo sep fuel b

/-- Python `str.split(sep)` for a non-empty separator: the blocks
between consecutive non-overlapping occurrences of `sep`, scanned left
to right. -/
def splitOnL (sep s : List Char) : List (List Char) := splitGo sep s.length s

/-- Line 71: `f"{r['pattern_label']} - {r['support_count']}"`. -/
def optionDisplay (label : List Char) (cnt : Int) : List Char :=
  label ++ dashSep ++ (toString cnt).data

/-- Line 73: `s.split(" - ")[0]`. -/
def selectedRecover (s : List Char) : List Char := (splitOnL dashSep s).headD s

/-- The last two characters are `' '`, `'-'` (a label with this shape
lets the first `" - "` occurrence of its display string start one
character early). -/
def endsSpDash : List Char → Bool
  | [] => false
  | [_] => false
  | [a, b] => a == ' ' && b == '-'
  | _ :: b :: c :: rest => endsSpDash (b :: c :: rest)

/-! ## Snippet highlighting (line 237)

`re.sub("(" + "|".join(escaped terms) + ")", r"**\\1**", snip,
flags=re.IGNORECASE)`.  The terms are literals (escaped), so the regex
scans left to right; at each position the alternation tries the terms
in order and the first that matches wins; the replacement wraps the
matched text — with its original casing — in `**`; scanning resumes
after the match.  An empty term matches the empty string: the engine
inserts the replacement and moves on one character. -/

/-- Case-insensitive literal match of `tok` at the head of `s`. -/
def ciStarts (tok s : List Char) : Bool :=
  match tok, s with
  | [], _ => true
  | _ :: _, [] => false
  | a :: ts, b :: ss => (a.toLower == b.toLower) && ciStarts ts ss

/-- The first alternative that matches at this position, as its length. -/
def firstAltLen (toks : List (List Char)) (s : List Char) : Option Nat :=
  match toks with
  | [] => none
  | tk :: rest => if ciStarts tk s then some tk.length else firstAltLen rest s

def hiGo (toks : List (List Char)) : Nat → List Char → List Char
  | 0, s => s
  | fuel + 1, s =>
    match s with
    | [] => []
    | c :: cs =>
      match firstAltLen toks (c :: cs) with
      | none => c :: hiGo toks fuel cs
      | some 0 => '*' :: '*' :: '*' :: '*' :: c :: hiGo toks fuel cs
      | some (k + 1) =>
        '*' :: '*' :: ((c :: cs).take (k + 1) ++ '*' :: '*' :: hiGo toks fuel ((c :: cs).drop (k + 1)))

/-- Line 237: highlight every occurrence of a constituent term of
`pat` (split on `" || "`) inside `snip`. -/
def highlightSnippet (pat snip : String) : String :=
  String.mk (hiGo (splitOnL barSep pat.data) snip.data.length snip.data)

end PatientsApp

namespace PatientsApp

/-! ## Concrete tables used by the claim instances -/

/-- A one-row pattern table without a `support_count` column whose
support times the record count is the half-integer 3/2 (exact in
binary floating point, so float rounding is not in play). -/
def tblC1 : PTable := ⟨false, [⟨["a"], "a", 1/2, 1, 0⟩]⟩

/-- A one-row pattern table without a `support_count` column, generic
witness input. -/
def tblW : PTable := ⟨false, [⟨["b"], "b", 7/10, 1, 0⟩]⟩

/-- Two time-series rows two calendar months apart (January and March
2020): February 2020 is a period with zero matching entries. -/
def rowsC2 : List (Date × Nat) := [(⟨2020, 1, 10⟩, 2), (⟨2020, 3, 5⟩, 4)]

/-- One time-series row on 2020-01-20, to be bucketed against the
range 2020-01-15 .. 2020-01-25 that cuts its calendar month. -/
def rowsC5 : List (Date × Nat) := [(⟨2020, 1, 20⟩, 5)]

/-- A pattern row whose single term is "fever". -/
def rowsC6 : List PRow := [⟨["fever"], "fever", 1, 1, 10⟩]

/-- The sort key selected by `order_by = 'support_count'`. -/
def keySC : PRow → Int := fun r => r.support_count

/-- Seventeen pattern rows with pairwise distinct labels and all
`support_count` keys equal: one element beyond numpy's insertion-sort
threshold, so the quicksort partition runs. -/
def tbl17 : List PRow :=
  [⟨[], "pa", 1, 0, 7⟩, ⟨[], "pb", 1, 1, 7⟩, ⟨[], "pc", 1, 2, 7⟩,
   ⟨[], "pd", 1, 3, 7⟩, ⟨[], "pe", 1, 4, 7⟩, ⟨[], "pf", 1, 5, 7⟩,
   ⟨[], "pg", 1, 6, 7⟩, ⟨[], "ph", 1, 7, 7⟩, ⟨[], "pi", 1, 8, 7⟩,
   ⟨[], "pj", 1, 9, 7⟩, ⟨[], "pk", 1, 10, 7⟩, ⟨[], "pl", 1, 11, 7⟩,
   ⟨[], "pm", 1, 12, 7⟩, ⟨[], "pn", 1, 13, 7⟩, ⟨[], "po", 1, 14, 7⟩,
   ⟨[], "pp", 1, 15, 7⟩, ⟨[], "pq", 1, 16, 7⟩]

/-- A six-row fixture with duplicate `support_count` values (5, 3, 5,
3, 5, 2), inside the insertion-sort regime. -/
def fixt6 : List PRow :=
  [⟨[], "qa", 1, 1, 5⟩, ⟨[], "qb", 1, 2, 3⟩, ⟨[], "qc", 1, 3, 5⟩,
   ⟨[], "qd", 1, 4, 3⟩, ⟨[], "qe", 1, 5, 5⟩, ⟨[], "qf", 1, 6, 2⟩]

/-- Demographic rows for pattern "P": M = 30 in one bin and 12 in
another, and no F rows at all. -/
def demogC8 : List DRow := [⟨"P", "18-39", "M", 30⟩, ⟨"P", "40-59", "M", 12⟩]

/-- Time-series rows: P1 has a row inside 2020, P2 only a row in 1999
(outside the chosen range but a non-empty raw subset). -/
def tsC10 : List TSRow := [⟨"P1", ⟨2020, 5, 1⟩, 3⟩, ⟨"P2", ⟨1999, 1, 1⟩, 4⟩]

def demogC10 : List DRow := [⟨"P1", "18-39", "M", 1⟩, ⟨"P2", "40-59", "F", 2⟩]

end PatientsApp

namespace PatientsApp

/-! ## Helper lemmas -/

theorem guard_foldl_max (l : List (String × Nat)) :
    (if l.isEmpty then 0 else (l.map Prod.snd).foldl max 0)
      = (l.map Prod.snd).foldl max 0 := by
  cases l <;> simp

end PatientsApp

namespace PatientsApp

/-! ## The claims -/

set_option maxRecDepth 100000 in
/-- C3 counterexample: sorting the 17-row all-ties table by
`support_count`, ascending, with pandas' default quicksort reorders
rows with equal keys — the claimed stability fails on this input. -/
theorem C3_counterexample :
    stableOn keySC tbl17 (sort_values tbl17 keySC true) = false := by decide

set_option maxRecDepth 100000 in
/-- C3 (amended): pandas' default sort kind is numpy quicksort, which
is not stable in general (see the 17-row counterexample); on tables of
at most 16 rows the argsort is a stable insertion sort and the
descending path (reverse, argsort, reverse) is also order-preserving
on ties, verified here on a fixture with duplicate `support_count`
values in both directions, ties keeping their input order. -/
theorem C3_theorem :
    stableOn keySC fixt6 (sort_values fixt6 keySC true) = true ∧
    stableOn keySC fixt6 (sort_values fixt6 keySC false) = true ∧
    (sort_values fixt6 keySC true).map (fun r => r.pattern_label)
      = ["qf", "qb", "qd", "qa", "qc", "qe"] ∧
    (sort_values fixt6 keySC false).map (fun r => r.pattern_label)
      = ["qa", "qc", "qe", "qb", "qd", "qf"] := by decide

/-- C4: the code, not the claim, is at fault — when every selected
pattern has an empty raw time-series subset and a split toggle is on,
the loop never assigns the figure variable and the display line raises
`NameError`; with the toggles off the same selection renders as a
valid empty result. -/
theorem C4_theorem :
    renderRight ["X"] [] [] ⟨2020, 1, 1⟩ ⟨2020, 12, 31⟩ monthKey true false
      = Except.error "NameError: name fig_age is not defined" ∧
    renderRight ["X"] [] [] ⟨2020, 1, 1⟩ ⟨2020, 12, 31⟩ monthKey false true
      = Except.error "NameError: name fig_gender is not defined" ∧
    renderRight ["X"] [] [] ⟨2020, 1, 1⟩ ⟨2020, 12, 31⟩ monthKey false false
      = Except.ok ⟨[], none⟩ := ⟨rfl, rfl, rfl⟩

/-- C7: highlighting wraps every case-insensitive occurrence of a
constituent term in `**` markers keeping the matched text's casing,
and overlapping candidates resolve leftmost-first-alternative: with
terms ["fever", "feverish"], the snippet "Patient had feverish chills"
gets exactly the one span "**fever**" wrapped. -/
theorem C7_theorem :
    highlightSnippet "fever || feverish" "Patient had feverish chills"
      = "Patient had **fever**ish chills" ∧
    highlightSnippet "fever || feverish" "FEVER and fever"
      = "**FEVER** and **fever**" := by decide

/-- C2 counterexample: bucketing the January/March rows produces a
February bucket with zero matching entries and count 0 — empty periods
inside the span are zero-filled, not omitted. -/
theorem C2_counterexample :
    grouperSum monthKey (dateFilter ⟨2020, 1, 1⟩ ⟨2020, 12, 31⟩ rowsC2)
      = [(24240, 2), (24241, 0), (24242, 4)] ∧
    ¬ (∀ b ∈ grouperSum monthKey (dateFilter ⟨2020, 1, 1⟩ ⟨2020, 12, 31⟩ rowsC2),
        ∃ r ∈ dateFilter ⟨2020, 1, 1⟩ ⟨2020, 12, 31⟩ rowsC2, monthKey r.1 = b.1) := by
  constructor
  · decide
  · decide

/-- C5 counterexample: with range 2020-01-15 .. 2020-01-25 the single
produced bucket is the calendar month January 2020, which contains
2020-01-30, a date outside the range — produced buckets are not fully
contained in [start, end]. -/
theorem C5_counterexample :
    ¬ (∀ b ∈ grouperSum monthKey (dateFilter ⟨2020, 1, 15⟩ ⟨2020, 1, 25⟩ rowsC5),
        ∀ dt : Date, monthKey dt = b.1 →
          (dle ⟨2020, 1, 15⟩ dt = true ∧ dle dt ⟨2020, 1, 25⟩ = true)) := by
  intro h
  have hb : ((24240 : Nat), (5 : Nat))
      ∈ grouperSum monthKey (dateFilter ⟨2020, 1, 15⟩ ⟨2020, 1, 25⟩ rowsC5) := by decide
  have h30 := h _ hb ⟨2020, 1, 30⟩ (by decide)
  exact absurd h30.2 (by decide)

/-- C6 counterexample: this copy of the script filters only on length
and support count; a non-empty search term constrains nothing, so a
row whose terms do not contain the search string still passes. -/
theorem C6_counterexample :
    ¬ (∀ search : String, ∀ r ∈ filtPatterns rowsC6 1 1,
        search ≠ "" → specSearchMatch search r = true) := by
  intro h
  have hf : filtPatterns rowsC6 1 1 = rowsC6 := rfl
  have hm : (⟨["fever"], "fever", 1, 1, 10⟩ : PRow) ∈ filtPatterns rowsC6 1 1 := by
    rw [hf]; exact List.mem_singleton_self _
  have := h "zzz" _ hm (by decide)
  exact absurd this (by decide)

/-- C6 (amended): the filter returns a sub-list of the input whose
every row satisfies `len ≥ L` and `support_count ≥ F`; there is no
search conjunct (the search box is absent from this copy of the
script). -/
theorem C6_theorem (rows : List PRow) (L : Nat) (F : Int) :
    (filtPatterns rows L F).Sublist rows ∧
    ∀ r ∈ filtPatterns rows L F, L ≤ r.len ∧ F ≤ r.support_count := by
  refine ⟨List.filter_sublist _, fun r hr => ?_⟩
  have := List.of_mem_filter hr
  simp only [Bool.and_eq_true, decide_eq_true_eq] at this
  exact this

/-- C8: the combined split's y-axis bound is `1.1 ×` the maximum over
the male and female per-age-bin series, an empty gender series
contributing 0 rather than an error; on the M=30-only fixture the
maximum is 30 and the bound is 33. -/
theorem C8_theorem :
    (∀ pat demog, (mkAgeGenderFig pat demog).yMax
        = ((max (seriesMaxSpec pat "M" demog) (seriesMaxSpec pat "F" demog) : Nat) : ℚ)
          * (11 / 10)) ∧
    seriesMaxSpec "P" "M" demogC8 = 30 ∧
    seriesMaxSpec "P" "F" demogC8 = 0 ∧
    (mkAgeGenderFig "P" demogC8).yMax = 33 := by
  refine ⟨fun pat demog => ?_, by decide, by decide, ?_⟩
  · simp only [mkAgeGenderFig, seriesMaxSpec, guard_foldl_max]
    simp [Nat.max_comm]
  · have h30 : (mkAgeGenderFig "P" demogC8).yMax = ((30 : Nat) : ℚ) * (11 / 10) := rfl
    rw [h30]; norm_num

end PatientsApp

namespace PatientsApp

/-! ## More helper lemmas: fold bounds and bucket sums -/

theorem foldl_min_le_init (l : List Nat) (a : Nat) : l.foldl min a ≤ a := by
  induction l generalizing a with
  | nil => simp
  | cons b t ih => exact le_trans (ih (min a b)) (min_le_left a b)

theorem foldl_min_le_mem (l : List Nat) (a x : Nat) (hx : x ∈ l) :
    l.foldl min a ≤ x := by
  induction l generalizing a with
  | nil => cases hx
  | cons b t ih =>
    rw [List.foldl_cons]
    rcases List.mem_cons.mp hx with h | h
    · subst h
      exact le_trans (foldl_min_le_init t (min a x)) (min_le_right a x)
    · exact ih (min a b) h

theorem le_foldl_max_init (l : List Nat) (a : Nat) : a ≤ l.foldl max a := by
  induction l generalizing a with
  | nil => simp
  | cons b t ih => exact le_trans (le_max_left a b) (ih (max a b))

theorem le_foldl_max_mem (l : List Nat) (a x : Nat) (hx : x ∈ l) :
    x ≤ l.foldl max a := by
  induction l generalizing a with
  | nil => cases hx
  | cons b t ih =>
    rw [List.foldl_cons]
    rcases List.mem_cons.mp hx with h | h
    · subst h
      exact le_trans (le_max_right a x) (le_foldl_max_init t (max a x))
    · exact ih (max a b) h

theorem foldl_min_attained (l : List Nat) (a : Nat) :
    l.foldl min a = a ∨ l.foldl min a ∈ l := by
  induction l generalizing a with
  | nil => exact Or.inl rfl
  | cons b t ih =>
    rw [List.foldl_cons]
    rcases ih (min a b) with h | h
    · rcases min_choice a b with hab | hab
      · exact Or.inl (by rw [h, hab])
      · refine Or.inr ?_
        rw [h, hab]
        exact List.mem_cons_self b t
    · exact Or.inr (List.mem_cons_of_mem b h)

theorem foldl_max_attained (l : List Nat) (a : Nat) :
    l.foldl max a = a ∨ l.foldl max a ∈ l := by
  induction l generalizing a with
  | nil => exact Or.inl rfl
  | cons b t ih =>
    rw [List.foldl_cons]
    rcases ih (max a b) with h | h
    · rcases max_choice a b with hab | hab
      · exact Or.inl (by rw [h, hab])
      · refine Or.inr ?_
        rw [h, hab]
        exact List.mem_cons_self b t
    · exact Or.inr (List.mem_cons_of_mem b h)

theorem sum_ite_key (lo n k c : Nat) :
    ((List.range n).map fun i => if k = lo + i then c else 0).sum
      = if lo ≤ k ∧ k < lo + n then c else 0 := by
  induction n with
  | zero => rw [if_neg (by omega)]; simp
  | succ n ih =>
    rw [List.range_succ, List.map_append, List.sum_append, ih]
    simp only [List.map_cons, List.map_nil, List.sum_cons, List.sum_nil]
    by_cases hk : k = lo + n
    · rw [if_pos hk, if_neg (by omega), if_pos (by omega)]
      omega
    · rw [if_neg hk]
      by_cases hin : lo ≤ k ∧ k < lo + n
      · rw [if_pos hin, if_pos (by omega)]
        omega
      · rw [if_neg hin, if_neg (by omega)]
        omega

theorem range_map_sum_add (n : Nat) (f g : Nat → Nat) :
    ((List.range n).map fun i => f i + g i).sum
      = ((List.range n).map f).sum + ((List.range n).map g).sum := by
  induction n with
  | zero => simp
  | succ n ih =>
    simp only [List.range_succ, List.map_append, List.sum_append, ih,
      List.map_cons, List.map_nil, List.sum_cons, List.sum_nil]
    omega

theorem sumCounts_filter_cons (p : Date × Nat → Bool) (r : Date × Nat)
    (rs : List (Date × Nat)) :
    sumCounts ((r :: rs).filter p)
      = (if p r then r.2 else 0) + sumCounts (rs.filter p) := by
  rw [List.filter_cons]
  by_cases hc : p r
  · simp [hc, sumCounts]
  · simp [hc, sumCounts]

theorem sum_buckets (keyFn : Date → Nat) (lo n : Nat) (rows : List (Date × Nat))
    (h : ∀ r ∈ rows, lo ≤ keyFn r.1 ∧ keyFn r.1 < lo + n) :
    ((List.range n).map fun i =>
        sumCounts (rows.filter fun r => keyFn r.1 == lo + i)).sum = sumCounts rows := by
  induction rows with
  | nil => simp [sumCounts]
  | cons r rs ih =>
    have hr := h r (List.mem_cons_self r rs)
    have htail : ∀ x ∈ rs, lo ≤ keyFn x.1 ∧ keyFn x.1 < lo + n :=
      fun x hx => h x (List.mem_cons_of_mem r hx)
    have hterm : ((List.range n).map fun i =>
        sumCounts ((r :: rs).filter fun x => keyFn x.1 == lo + i))
        = (List.range n).map fun i =>
            (if keyFn r.1 = lo + i then r.2 else 0)
              + sumCounts (rs.filter fun x => keyFn x.1 == lo + i) := by
      refine List.map_congr_left fun i _ => ?_
      rw [sumCounts_filter_cons]
      by_cases hc : keyFn r.1 = lo + i
      · rw [if_pos (by simpa using hc), if_pos hc]
      · rw [if_neg (by simpa using hc), if_neg hc]
    rw [hterm, range_map_sum_add, sum_ite_key, if_pos hr, ih htail]
    simp [sumCounts]

end PatientsApp

namespace PatientsApp

/-- C1 counterexample: with support 1/2 over 3 records the code stores
`astype(int)` of 3/2, namely 1, while the claimed `round` gives 2. -/
theorem C1_counterexample :
    ¬ (∀ r ∈ (deriveSupportCount 3 tblC1).rows,
        r.support_count = round (r.support * (3 : ℚ))) := by
  intro h
  have hm : (⟨["a"], "a", 1/2, 1, astypeInt ((1/2 : ℚ) * 3)⟩ : PRow)
      ∈ (deriveSupportCount 3 tblC1).rows := by
    rw [show (deriveSupportCount 3 tblC1).rows
        = [⟨["a"], "a", 1/2, 1, astypeInt ((1/2 : ℚ) * 3)⟩] from rfl]
    exact List.mem_singleton_self _
  have heq : astypeInt ((1/2 : ℚ) * 3) = round ((1/2 : ℚ) * 3) := h _ hm
  rw [astypeInt, if_neg (by norm_num)] at heq
  norm_num [round_eq] at heq

/-- Idempotence of the support-count derivation: the second pass sees
the column present and is the identity. -/
theorem derive_idem (total : Nat) (t : PTable) :
    deriveSupportCount total (deriveSupportCount total t)
      = deriveSupportCount total t := by
  by_cases h : t.hasSupportCount <;> simp [deriveSupportCount, h]

/-- C1 (amended): for a table missing the column, one pass sets
`support_count = floor(support × total)` for every row (truncation,
which on the non-negative supports is the floor — not `round`), and a
second pass is a no-op. -/
theorem C1_theorem (t : PTable) (total : Nat) (h : t.hasSupportCount = false)
    (hs : ∀ r ∈ t.rows, 0 ≤ r.support) :
    (∀ r ∈ (deriveSupportCount total t).rows,
        r.support_count = Int.floor (r.support * (total : ℚ))) ∧
    deriveSupportCount total (deriveSupportCount total t)
      = deriveSupportCount total t := by
  refine ⟨?_, derive_idem total t⟩
  intro r hr
  rw [deriveSupportCount, h] at hr
  simp only [Bool.false_eq_true, if_false] at hr
  obtain ⟨r0, hr0, rfl⟩ := List.mem_map.mp hr
  show astypeInt (r0.support * (total : ℚ)) = Int.floor (r0.support * (total : ℚ))
  rw [astypeInt,
    if_neg (not_lt.mpr (mul_nonneg (hs r0 hr0) (by positivity)))]

/-- C1 witness: the amended statement at the concrete one-row table
`tblW` with 10 records. -/
theorem C1_witness :
    (∀ r ∈ (deriveSupportCount 10 tblW).rows,
        r.support_count = Int.floor (r.support * (10 : ℚ))) ∧
    deriveSupportCount 10 (deriveSupportCount 10 tblW)
      = deriveSupportCount 10 tblW :=
  C1_theorem tblW 10 rfl (by
    intro r hr
    rw [show tblW.rows = [(⟨["b"], "b", 7/10, 1, 0⟩ : PRow)] from rfl,
      List.mem_singleton] at hr
    subst hr
    show (0 : ℚ) ≤ 7/10
    norm_num)

/-- C5 (amended): for every bucket-key assignment (granularity), date
range and row set, the bucket sums conserve the filtered total — the
containment half of the claim fails (see the counterexample): buckets
are calendar periods that can spill over the range boundary. -/
theorem C5_theorem (keyFn : Date → Nat) (s e : Date) (rows : List (Date × Nat)) :
    ((grouperSum keyFn (dateFilter s e rows)).map Prod.snd).sum
      = sumCounts (dateFilter s e rows) := by
  generalize dateFilter s e rows = l
  cases l with
  | nil => rfl
  | cons r0 rest =>
    simp only [grouperSum, List.map_map]
    refine Eq.trans ?_ (sum_buckets keyFn
      ((bucketKeys keyFn (r0 :: rest)).foldl min (keyFn r0.1))
      ((bucketKeys keyFn (r0 :: rest)).foldl max (keyFn r0.1) + 1
        - (bucketKeys keyFn (r0 :: rest)).foldl min (keyFn r0.1))
      (r0 :: rest) ?_)
    · rfl
    · intro r hr
      have hmem : keyFn r.1 ∈ bucketKeys keyFn (r0 :: rest) := by
        exact List.mem_map_of_mem _ hr
      have h1 := foldl_min_le_mem (bucketKeys keyFn (r0 :: rest)) (keyFn r0.1)
        (keyFn r.1) hmem
      have h2 := le_foldl_max_mem (bucketKeys keyFn (r0 :: rest)) (keyFn r0.1)
        (keyFn r.1) hmem
      omega

/-- C2 (amended): a key appears among the produced buckets exactly when
it lies between some populated bucket key and some populated bucket
key — the grid runs from the smallest populated bucket to the largest,
zero-filling the empty buckets in between, and omits only the periods
outside that span. -/
theorem C2_theorem (keyFn : Date → Nat) (rows : List (Date × Nat)) (k : Nat) :
    k ∈ (grouperSum keyFn rows).map Prod.fst
      ↔ ((∃ r ∈ rows, keyFn r.1 ≤ k) ∧ (∃ r ∈ rows, k ≤ keyFn r.1)) := by
  cases rows with
  | nil => simp [grouperSum]
  | cons r0 rest =>
    simp only [grouperSum, List.map_map, Function.comp, List.mem_map,
      List.mem_range]
    constructor
    · rintro ⟨i, hilt, rfl⟩
      constructor
      · rcases foldl_min_attained (bucketKeys keyFn (r0 :: rest)) (keyFn r0.1)
          with h | h
        · exact ⟨r0, List.mem_cons_self r0 rest, by omega⟩
        · obtain ⟨r, hr, hkr⟩ := List.mem_map.mp h
          exact ⟨r, hr, by omega⟩
      · rcases foldl_max_attained (bucketKeys keyFn (r0 :: rest)) (keyFn r0.1)
          with h | h
        · exact ⟨r0, List.mem_cons_self r0 rest, by omega⟩
        · obtain ⟨r, hr, hkr⟩ := List.mem_map.mp h
          exact ⟨r, hr, by omega⟩
    · rintro ⟨⟨r1, hr1, h1⟩, ⟨r2, hr2, h2⟩⟩
      have hlo := foldl_min_le_mem (bucketKeys keyFn (r0 :: rest)) (keyFn r0.1)
        (keyFn r1.1) (List.mem_map_of_mem _ hr1)
      have hhi := le_foldl_max_mem (bucketKeys keyFn (r0 :: rest)) (keyFn r0.1)
        (keyFn r2.1) (List.mem_map_of_mem _ hr2)
      exact ⟨k - (bucketKeys keyFn (r0 :: rest)).foldl min (keyFn r0.1),
        by omega, by omega⟩

end PatientsApp

namespace PatientsApp

/-- A pattern whose raw time-series subset is empty is skipped: the
loop body leaves the state unchanged. -/
theorem loopStep_skip (ts : List TSRow) (demog : List DRow) (s e : Date)
    (keyFn : Date → Nat) (sa sg : Bool) (st : RState) (pat : String)
    (h : (tsSub ts pat).isEmpty = true) :
    loopStep ts demog s e keyFn sa sg st pat = st := by
  simp [loopStep, h]

/-- With the age split on (and the gender split off), a pattern with a
non-empty raw subset rebinds `fig_age` to its own figure. -/
theorem loopStep_figAge (ts : List TSRow) (demog : List DRow) (s e : Date)
    (keyFn : Date → Nat) (st : RState) (pat : String)
    (h : (tsSub ts pat).isEmpty = false) :
    (loopStep ts demog s e keyFn true false st pat).figAge
      = some (mkAgeFig pat demog) := by
  simp [loopStep, h]

/-- After the whole loop, `fig_age` holds the figure of the last
selected pattern whose raw time-series subset is non-empty — each
iteration overwrites it — and is still unbound if there is none. -/
theorem foldl_figAge (ts : List TSRow) (demog : List DRow) (s e : Date)
    (keyFn : Date → Nat) (st : RState) (sel : List String) :
    ((sel.foldl (loopStep ts demog s e keyFn true false) st).figAge)
      = (match (sel.filter fun p => !(tsSub ts p).isEmpty).getLast? with
          | none => st.figAge
          | some p => some (mkAgeFig p demog)) := by
  induction sel using List.reverseRecOn with
  | nil => simp
  | append_singleton l x ih =>
    rw [List.foldl_append, List.foldl_cons, List.foldl_nil, List.filter_append]
    by_cases hx : (tsSub ts x).isEmpty
    · rw [loopStep_skip ts demog s e keyFn true false _ x hx, ih]
      simp [hx]
    · rw [loopStep_figAge ts demog s e keyFn _ x (by simpa using hx)]
      simp [List.filter_cons, hx]

/-- C10 (amended): when the age split is on and the gender split off,
at most one demographic chart is rendered, and it is the one built for
the last selected pattern whose raw (pre-date-filter) time-series
subset is non-empty; the figures of all earlier selected patterns are
overwritten and never rendered.  (The claim's "date-filtered" is the
one inaccuracy: the guard at line 135 runs before the date filter —
see the counterexample.) -/
theorem C10_theorem (sel : List String) (ts : List TSRow) (demog : List DRow)
    (s e : Date) (keyFn : Date → Nat) (p : String)
    (hlast : (sel.filter fun q => !(tsSub ts q).isEmpty).getLast? = some p) :
    renderedDemog (renderRight sel ts demog s e keyFn true false)
      = some (DemogFig.age (mkAgeFig p demog)) := by
  have hne : sel.isEmpty = false := by
    cases sel with
    | nil => simp at hlast
    | cons a l => rfl
  rw [renderRight]
  rw [hne]
  simp only [Bool.false_eq_true, if_false, Bool.not_false, Bool.and_self,
    if_true]
  rw [foldl_figAge, hlast]
  rfl

/-- C10 witness: both patterns of `tsC10` have non-empty raw subsets,
so the rendered age chart is the one for "P2", the last of them. -/
theorem C10_witness :
    renderedDemog (renderRight ["P1", "P2"] tsC10 demogC10
        ⟨2020, 1, 1⟩ ⟨2020, 12, 31⟩ monthKey true false)
      = some (DemogFig.age (mkAgeFig "P2" demogC10)) :=
  C10_theorem ["P1", "P2"] tsC10 demogC10 ⟨2020, 1, 1⟩ ⟨2020, 12, 31⟩
    monthKey "P2" (by decide)

/-- C10 counterexample: the last pattern with a non-empty
**date-filtered** series is "P1" (the rows of "P2" all fall outside
the range), yet the rendered chart is the one for "P2", which differs
from "P1"'s — the claim's "date-filtered" reading is false on the
code. -/
theorem C10_counterexample :
    ((["P1", "P2"].filter fun q =>
        !(dateFilter ⟨2020, 1, 1⟩ ⟨2020, 12, 31⟩
            ((tsSub tsC10 q).map fun r => (r.pub_date, r.count))).isEmpty).getLast?
      = some "P1") ∧
    renderedDemog (renderRight ["P1", "P2"] tsC10 demogC10
        ⟨2020, 1, 1⟩ ⟨2020, 12, 31⟩ monthKey true false)
      = some (DemogFig.age (mkAgeFig "P2" demogC10)) ∧
    mkAgeFig "P2" demogC10 ≠ mkAgeFig "P1" demogC10 := by decide

end PatientsApp

namespace PatientsApp

theorem isHeadOf_append_self (p t : List Char) : isHeadOf p (p ++ t) = true := by
  induction p with
  | nil => rfl
  | cons a ps ih => simp [isHeadOf, ih]

theorem isHeadOf_mono (p : List Char) :
    ∀ s t, isHeadOf p s = true → isHeadOf p (s ++ t) = true := by
  induction p with
  | nil => intro s t _; rfl
  | cons a ps ih =>
    intro s t h
    cases s with
    | nil => simp [isHeadOf] at h
    | cons b ss =>
      simp only [List.cons_append, isHeadOf, Bool.and_eq_true] at h ⊢
      exact ⟨h.1, ih ss t h.2⟩

/-- Splitting `label ++ " - " ++ t` at the first `" - "`: the first
piece is always a leading block of `label`, and equals `label` exactly
when `label` neither contains `" - "` nor ends in `' '`, `'-'`. -/
theorem breakAt_label (label : List Char) : ∀ t : List Char,
    ∃ a b, breakAt dashSep (label ++ (dashSep ++ t)) = some (a, b)
      ∧ isHeadOf a label = true
      ∧ (a = label ↔ (occursIn dashSep label = false ∧ endsSpDash label = false)) := by
  induction label with
  | nil =>
    intro t
    refine ⟨[], (([] : List Char) ++ (dashSep ++ t)).drop dashSep.length, ?_, rfl, ?_⟩
    · show breakAt dashSep (' ' :: ('-' :: (' ' :: t))) = _
      simp only [breakAt]
      rw [if_pos (show isHeadOf dashSep (' ' :: '-' :: ' ' :: t) = true
        from isHeadOf_append_self dashSep t)]
      rfl
    · simp [occursIn, endsSpDash, dashSep]
  | cons c l ih =>
    intro t
    by_cases hp : isHeadOf dashSep ((c :: l) ++ (dashSep ++ t)) = true
    · refine ⟨[], ((c :: l) ++ (dashSep ++ t)).drop dashSep.length, ?_, rfl, ?_⟩
      · show breakAt dashSep (c :: (l ++ (dashSep ++ t))) = _
        simp only [breakAt]
        rw [if_pos (show isHeadOf dashSep (c :: (l ++ (dashSep ++ t))) = true from hp)]
        rfl
      · refine iff_of_false (by simp) ?_
        cases l with
        | nil =>
          exfalso
          simp only [dashSep, List.cons_append, List.nil_append, isHeadOf,
            Bool.and_eq_true, beq_iff_eq] at hp
          exact absurd hp.2.1 (by decide)
        | cons x l2 =>
          cases l2 with
          | nil =>
            rintro ⟨hocc, hend⟩
            simp only [dashSep, List.cons_append, List.nil_append, isHeadOf,
              Bool.and_eq_true, beq_iff_eq] at hp
            have hx2 : endsSpDash [c, x] = true := by
              rw [show endsSpDash [c, x] = ((c == ' ') && (x == '-')) from rfl,
                ← hp.1, ← hp.2.1]
              rfl
            rw [hend] at hx2
            exact Bool.false_ne_true hx2
          | cons y l3 =>
            rintro ⟨hocc, _⟩
            simp only [dashSep, List.cons_append, isHeadOf,
              Bool.and_eq_true, beq_iff_eq] at hp
            have hhead : isHeadOf dashSep (c :: x :: y :: l3) = true := by
              rw [show isHeadOf dashSep (c :: x :: y :: l3)
                  = ((' ' == c) && (('-' == x) && ((' ' == y) && true))) from rfl,
                ← hp.1, ← hp.2.1, ← hp.2.2.1]
              rfl
            rw [show occursIn dashSep (c :: x :: y :: l3)
                = (isHeadOf dashSep (c :: x :: y :: l3)
                    || occursIn dashSep (x :: y :: l3)) from rfl,
              hhead] at hocc
            simp at hocc
    · have hp2 : isHeadOf dashSep (c :: (l ++ (dashSep ++ t))) = false := by
        cases hb : isHeadOf dashSep (c :: (l ++ (dashSep ++ t))) with
        | false => rfl
        | true => exact absurd hb hp
      obtain ⟨a, b, hba, hha, hiff⟩ := ih t
      refine ⟨c :: a, b, ?_, ?_, ?_⟩
      · show breakAt dashSep (c :: (l ++ (dashSep ++ t))) = _
        simp only [breakAt]
        rw [if_neg (by rw [hp2]; exact Bool.false_ne_true), hba]
      · simp [isHeadOf, hha]
      · have hnohead : isHeadOf dashSep (c :: l) = false := by
          cases hcl : isHeadOf dashSep (c :: l) with
          | false => rfl
          | true =>
            exact absurd (isHeadOf_mono dashSep (c :: l) (dashSep ++ t) hcl) hp
        have hocc : occursIn dashSep (c :: l) = occursIn dashSep l := by
          rw [show occursIn dashSep (c :: l)
              = (isHeadOf dashSep (c :: l) || occursIn dashSep l) from rfl,
            hnohead, Bool.false_or]
        have hends : endsSpDash (c :: l) = endsSpDash l := by
          cases l with
          | nil => rfl
          | cons x l2 =>
            cases l2 with
            | nil =>
              by_cases hcx : endsSpDash [c, x] = true
              · exfalso
                rw [show endsSpDash [c, x] = ((c == ' ') && (x == '-')) from rfl] at hcx
                simp only [Bool.and_eq_true, beq_iff_eq] at hcx
                obtain ⟨hc1, hx1⟩ := hcx
                subst hc1
                subst hx1
                exact hp (isHeadOf_append_self dashSep ('-' :: ' ' :: t))
              · rw [Bool.not_eq_true] at hcx
                rw [hcx]
                rfl
            | cons y l3 => rfl
        rw [List.cons.injEq, hocc, hends]
        simp [hiff]

end PatientsApp

namespace PatientsApp

/-- `split(" - ")[0]` only ever looks at the first occurrence: it is
the piece before the first `" - "`, or the whole string if there is
none. -/
theorem selectedRecover_eq (s : List Char) :
    selectedRecover s = (match breakAt dashSep s with
      | none => s
      | some (a, _) => a) := by
  cases s with
  | nil => rfl
  | cons c cs =>
    show (splitGo dashSep ((c :: cs).length) (c :: cs)).headD (c :: cs) = _
    rw [List.length_cons]
    simp only [splitGo]
    cases h : breakAt dashSep (c :: cs) with
    | none => simp
    | some ab => cases ab with | mk a b => simp

/-- C9 (amended): the multiselect round-trip recovers the original
`pattern_label` exactly when the label neither contains `" - "` nor
ends with `" -"` (the appended separator can fuse with a trailing
`" -"`, an edge the claim's plain "contains no `\" - \"`" iff misses);
the recovered string is always a leading block (prefix) of the label,
and when recovery truncates, the truncated string matches no rows
keyed by the original label. -/
theorem C9_theorem (label : List Char) (cnt : Int) :
    (selectedRecover (optionDisplay label cnt) = label
      ↔ (occursIn dashSep label = false ∧ endsSpDash label = false)) ∧
    isHeadOf (selectedRecover (optionDisplay label cnt)) label = true ∧
    (∀ ts : List TSRow, (∀ r ∈ ts, r.pattern_label.data = label) →
      selectedRecover (optionDisplay label cnt) ≠ label →
      tsSub ts (String.mk (selectedRecover (optionDisplay label cnt))) = []) := by
  obtain ⟨a, b, hba, hha, hiff⟩ := breakAt_label label ((toString cnt).data)
  have hrec : selectedRecover (optionDisplay label cnt) = a := by
    rw [optionDisplay, List.append_assoc, selectedRecover_eq, hba]
  refine ⟨by rw [hrec]; exact hiff, by rw [hrec]; exact hha, ?_⟩
  intro ts hall hne
  rw [hrec] at hne
  rw [tsSub, List.filter_eq_nil_iff]
  intro r hr
  simp only [beq_iff_eq]
  intro hEq
  refine hne ?_
  have hdata : r.pattern_label.data = a := by rw [hEq]; exact hrec
  rw [← hdata]
  exact hall r hr

/-- C9 counterexample: the label `"x -"` contains no `" - "`
substring, yet its display string `"x - - 5"` splits at index 1 and
recovery returns `"x"` — the claimed iff fails in the right-to-left
direction. -/
theorem C9_counterexample :
    ¬ ((selectedRecover (optionDisplay "x -".data 5) = "x -".data)
        ↔ occursIn dashSep "x -".data = false) := by decide

end PatientsApp

namespace PatientsApp

set_option maxRecDepth 100000 in
/-- Sanity check of the argsort port: numpy's introsort on 17 equal
keys performs the median-of-3 swap, seven exchange-scan swaps and the
pivot placement, producing exactly this permutation (traced against
the `npysort` C source). -/
theorem npAargsort_allEqual17 :
    npAargsort (List.replicate 17 (5 : Int)) =
      [0, 14, 13, 12, 11, 10, 9, 15, 8, 6, 5, 4, 3, 2, 1, 7, 16] := by decide

set_option maxRecDepth 100000 in
/-- Sanity check of the argsort port: below 17 elements the insertion
branch runs and argsorts stably. -/
theorem npAargsort_insertion6 :
    npAargsort [5, 3, 5, 3, 5, 2] = [5, 1, 3, 0, 2, 4] := by decide

end PatientsApp
